import Mathlib

/-!
Verification development for a small scripting-language pipeline
(lexer, recursive-descent parser, tree-walking evaluator).

The embedding mirrors the source files lexer.rs, parser.rs and
interpreter.rs.  Character iterators become explicit lists of
characters, the peekable token cursor becomes an explicit token-list
state, and the mutable variable map becomes an association list that is
threaded through evaluation.  Numeric values, which the source stores in
a 64-bit float, are modelled as rationals; every numeral the lexer can
build and every arithmetic fact used in the theorems below stays inside
the integer range where float arithmetic is exact, so the rational model
agrees with the float semantics on everything stated here.  The source
functions that recurse without a structural measure (the token scanner
loop, the recursive-descent parser) receive an explicit fuel argument;
fuel exhaustion is reported as an error and never occurs on the concrete
programs evaluated below.  A Rust panic (the parser stage wrapper and
the unimplemented string-by-string branch of the evaluator) is modelled
as a distinguished outcome, since a panic aborts instead of returning.
-/

namespace Amoud

abbrev Str := String

/-! Tokens, from lexer.rs. -/

inductive Token where
  | VariableKeyword
  | IfKeyword
  | ElseKeyword
  | ThenKeyword
  | True
  | False
  | Identifier : Str → Token
  | Number : ℚ → Token
  | String : Str → Token
  | Plus
  | Minus
  | Multiply
  | Divide
  | LT
  | GT
  | LTE
  | GTE
  | EQ
  | NEQ
  | LeftParen
  | RightParen
  | Equals
  | Dot
deriving DecidableEq, Repr

/-- Debug rendering of a token, mirroring the derived Debug formatting
that the parser interpolates into its expectation errors. -/
def tokenDebug : Token → Str
  | Token.VariableKeyword => "VariableKeyword"
  | Token.IfKeyword => "IfKeyword"
  | Token.ElseKeyword => "ElseKeyword"
  | Token.ThenKeyword => "ThenKeyword"
  | Token.True => "True"
  | Token.False => "False"
  | Token.Identifier s => "Identifier(\"" ++ s ++ "\")"
  | Token.Number q => "Number(" ++ toString q ++ ")"
  | Token.String s => "String(\"" ++ s ++ "\")"
  | Token.Plus => "Plus"
  | Token.Minus => "Minus"
  | Token.Multiply => "Multiply"
  | Token.Divide => "Divide"
  | Token.LT => "LT"
  | Token.GT => "GT"
  | Token.LTE => "LTE"
  | Token.GTE => "GTE"
  | Token.EQ => "EQ"
  | Token.NEQ => "NEQ"
  | Token.LeftParen => "LeftParen"
  | Token.RightParen => "RightParen"
  | Token.Equals => "Equals"
  | Token.Dot => "Dot"

/-! Lexer, from lexer.rs.  The char iterator is a list of characters;
skip_whitespace is List.dropWhile, and the greedy reads are
takeWhile/dropWhile pairs. -/

/-- Unicode White_Space test used by the char-is_whitespace call in
skip_whitespace (the full Unicode table, not just ASCII). -/
def rustIsWhitespace (c : Char) : Bool :=
  let n := c.toNat
  (0x9 ≤ n && n ≤ 0xD) || n = 0x20 || n = 0x85 || n = 0xA0 || n = 0x1680 ||
  (0x2000 ≤ n && n ≤ 0x200A) || n = 0x2028 || n = 0x2029 || n = 0x202F ||
  n = 0x205F || n = 0x3000

/-- Membership in the Arabic-Indic digit range used by the lexer. -/
def isArabicDigit (c : Char) : Bool :=
  decide ('٠' ≤ c) && decide (c ≤ '٩')

/-- Characters that may start an identifier or keyword: the Arabic
letter range plus the three extra initial letter forms. -/
def isArabicLetterStart (c : Char) : Bool :=
  (decide ('ا' ≤ c) && decide (c ≤ 'ي')) || c = 'آ' || c = 'أ' || c = 'إ'

/-- Characters that may continue an identifier: the letter range plus
the five extra letter forms listed in read_identifier_or_keyword. -/
def isArabicLetterCont (c : Char) : Bool :=
  (decide ('ا' ≤ c) && decide (c ≤ 'ي')) ||
  c = 'آ' || c = 'أ' || c = 'إ' || c = 'ة' || c = 'ى'

/-- Characters consumed greedily by read_number: a digit or the
grouping separator. -/
def numberChar (c : Char) : Bool := isArabicDigit c || c = ','

/-- One step of the fold in arabic_numeral_to_float.  The closure
computes acc * 10 + digit for a digit, returns early with acc unchanged
on the separator, and for any other character the inner match yields acc
so the step computes acc * 10 + acc. -/
def arabicDigitStep (acc : ℚ) (c : Char) : ℚ :=
  if c = '٠' then acc * 10 + 0
  else if c = '١' then acc * 10 + 1
  else if c = '٢' then acc * 10 + 2
  else if c = '٣' then acc * 10 + 3
  else if c = '٤' then acc * 10 + 4
  else if c = '٥' then acc * 10 + 5
  else if c = '٦' then acc * 10 + 6
  else if c = '٧' then acc * 10 + 7
  else if c = '٨' then acc * 10 + 8
  else if c = '٩' then acc * 10 + 9
  else if c = ',' then acc
  else acc * 10 + acc

/-- The fold of arabic_numeral_to_float over the collected characters. -/
def arabicNumeralToFloat (s : List Char) : ℚ := s.foldl arabicDigitStep 0

/-- Lexer.read_number: after the first digit, consume digits and
separators greedily and convert with arabic_numeral_to_float. -/
def readNumber (firstDigit : Char) (cs : List Char) : Token × List Char :=
  (Token.Number (arabicNumeralToFloat (firstDigit :: cs.takeWhile numberChar)),
   cs.dropWhile numberChar)

/-- Loop body of Lexer.read_string: the Bool is the escaped flag.  An
unescaped quote ends the string (quote consumed, not included); an
unescaped backslash sets the flag; an escaped character is copied
verbatim; end of input ends the loop with everything consumed. -/
def readStringGo : List Char → Bool → (List Char × List Char)
  | [], _ => ([], [])
  | c :: rest, true =>
    let (s, r) := readStringGo rest false
    (c :: s, r)
  | c :: rest, false =>
    if c = '"' then ([], rest)
    else if c = '\\' then readStringGo rest true
    else
      let (s, r) := readStringGo rest false
      (c :: s, r)

/-- Lexer.read_string, producing the String token and the remaining
input. -/
def readString (cs : List Char) : Token × List Char :=
  (Token.String (String.mk (readStringGo cs false).1), (readStringGo cs false).2)

/-- Lexer.read_identifier_or_keyword: consume continuation letters
greedily and match the accumulated text against the keyword table. -/
def readIdentifierOrKeyword (firstChar : Char) (cs : List Char) : Token × List Char :=
  let identifier := String.mk (firstChar :: cs.takeWhile isArabicLetterCont)
  let rest := cs.dropWhile isArabicLetterCont
  (if identifier = "متغير" then Token.VariableKeyword
   else if identifier = "لو" then Token.IfKeyword
   else if identifier = "ف" then Token.ThenKeyword
   else if identifier = "وإلا" then Token.ElseKeyword
   else if identifier = "نعم" then Token.True
   else if identifier = "لا" then Token.False
   else Token.Identifier identifier, rest)

/-- Lexer.next_token: skip whitespace, then dispatch on the next
character.  Returns the produced token (none both at end of input and on
an unrecognized character, exactly as in the source) together with the
remaining input. -/
def nextToken (cs : List Char) : Option Token × List Char :=
  match cs.dropWhile rustIsWhitespace with
  | [] => (none, [])
  | ch :: rest =>
    if ch = '+' then (some Token.Plus, rest)
    else if ch = '-' then (some Token.Minus, rest)
    else if ch = '*' then (some Token.Multiply, rest)
    else if ch = '/' then (some Token.Divide, rest)
    else if ch = '<' then (some Token.LT, rest)
    else if ch = '>' then (some Token.LT, rest)
    else if ch = '(' then (some Token.LeftParen, rest)
    else if ch = ')' then (some Token.RightParen, rest)
    else if ch = '=' then (some Token.Equals, rest)
    else if ch = '.' then (some Token.Dot, rest)
    else if ch = '"' then
      (some (readString rest).1, (readString rest).2)
    else if isArabicDigit ch then
      (some (readNumber ch rest).1, (readNumber ch rest).2)
    else if isArabicLetterStart ch then
      (some (readIdentifierOrKeyword ch rest).1, (readIdentifierOrKeyword ch rest).2)
    else (none, rest)

/-- The while-let loop of the lexer run function: collect tokens until
next_token yields none.  The fuel only bounds the number of loop
iterations; each successful iteration consumes at least one character,
so the fuel chosen in lexRun never runs out. -/
def lexGo : Nat → List Char → List Token
  | 0, _ => []
  | fuel + 1, cs =>
    match nextToken cs with
    | (some t, rest) => t :: lexGo fuel rest
    | (none, _) => []

/-- The lexer entry point run, over the whole input string. -/
def lexRun (input : Str) : List Token :=
  lexGo (input.data.length + 1) input.data

/-! Operators and AST, from parser.rs. -/

inductive Operator where
  | Plus
  | Minus
  | Multiply
  | Divide
  | And
  | Or
  | EQ
  | NEQ
  | GT
  | GTE
  | LT
  | LTE
deriving DecidableEq, Repr

/-- Debug rendering of an operator, mirroring the derived Debug
formatting interpolated into evaluator errors. -/
def operatorDebug : Operator → Str
  | Operator.Plus => "Plus"
  | Operator.Minus => "Minus"
  | Operator.Multiply => "Multiply"
  | Operator.Divide => "Divide"
  | Operator.And => "And"
  | Operator.Or => "Or"
  | Operator.EQ => "EQ"
  | Operator.NEQ => "NEQ"
  | Operator.GT => "GT"
  | Operator.GTE => "GTE"
  | Operator.LT => "LT"
  | Operator.LTE => "LTE"

inductive ASTNode where
  | Number : ℚ → ASTNode
  | StringLiteral : Str → ASTNode
  | BooleanLiteral : Bool → ASTNode
  | Variable : Str → ASTNode
  | IfStatement : ASTNode → List ASTNode → Option (List ASTNode) → ASTNode
  | BinaryOp : ASTNode → Operator → ASTNode → ASTNode
  | VariableDeclaration : Str → ASTNode → ASTNode

/-! Parser, from parser.rs.  Each parse function takes the remaining
token list and returns the parsed node together with the tokens left
over, or the first error.  The peekable iterator becomes pattern
matching on the head of the list; functions that in the source consume
via next before inspecting do the same here.  The fuel argument makes
the mutual recursion structural; every recursive call decreases it. -/

def outOfFuel : Str := "parser fuel exhausted"

/-- Parser.expect: consume one token and compare it with the expected
one, failing with the formatted expectation message otherwise. -/
def expect (expected : Token) : List Token → Except Str (List Token)
  | t :: rest =>
    if t = expected then Except.ok rest
    else Except.error ("Expected " ++ tokenDebug expected)
  | [] => Except.error ("Expected " ++ tokenDebug expected)

mutual

/-- Parser.parse_statement: dispatch on the peeked token; the default
case parses an expression statement and requires the terminating dot. -/
def parseStatement : Nat → List Token → Except Str (ASTNode × List Token)
  | 0, _ => Except.error outOfFuel
  | fuel + 1, toks =>
    match toks with
    | Token.VariableKeyword :: _ => parseVariableDeclaration fuel toks
    | Token.IfKeyword :: _ => parseIfStatement fuel toks
    | _ =>
      match parseExpression fuel toks with
      | Except.error e => Except.error e
      | Except.ok (expr, rest) =>
        match expect Token.Dot rest with
        | Except.error e => Except.error e
        | Except.ok rest1 => Except.ok (expr, rest1)

/-- Parser.parse_variable_declaration: consume the keyword, require an
identifier, the assignment symbol, an expression and the dot. -/
def parseVariableDeclaration : Nat → List Token → Except Str (ASTNode × List Token)
  | 0, _ => Except.error outOfFuel
  | fuel + 1, toks =>
    match toks with
    | _ :: Token.Identifier varName :: rest1 =>
      match expect Token.Equals rest1 with
      | Except.error e => Except.error e
      | Except.ok rest2 =>
        match parseExpression fuel rest2 with
        | Except.error e => Except.error e
        | Except.ok (value, rest3) =>
          match expect Token.Dot rest3 with
          | Except.error e => Except.error e
          | Except.ok rest4 =>
            Except.ok (ASTNode.VariableDeclaration varName value, rest4)
    | _ => Except.error "Expected identifier after \x27متغير\x27"

/-- Parser.parse_expression: an expression is a comparison. -/
def parseExpression : Nat → List Token → Except Str (ASTNode × List Token)
  | 0, _ => Except.error outOfFuel
  | fuel + 1, toks => parseComparison fuel toks

/-- Parser.parse_comparison: one additive operand, then the comparison
loop. -/
def parseComparison : Nat → List Token → Except Str (ASTNode × List Token)
  | 0, _ => Except.error outOfFuel
  | fuel + 1, toks =>
    match parseAdditive fuel toks with
    | Except.error e => Except.error e
    | Except.ok (expr, rest) => parseComparisonLoop fuel expr rest

/-- The loop of parse_comparison: while the peeked token is a
comparison operator, consume it, parse the right operand and extend the
left-leaning chain. -/
def parseComparisonLoop : Nat → ASTNode → List Token → Except Str (ASTNode × List Token)
  | 0, _, _ => Except.error outOfFuel
  | fuel + 1, expr, toks =>
    match toks with
    | Token.LT :: rest =>
      match parseAdditive fuel rest with
      | Except.error e => Except.error e
      | Except.ok (right, rest1) =>
        parseComparisonLoop fuel (ASTNode.BinaryOp expr Operator.LT right) rest1
    | Token.GT :: rest =>
      match parseAdditive fuel rest with
      | Except.error e => Except.error e
      | Except.ok (right, rest1) =>
        parseComparisonLoop fuel (ASTNode.BinaryOp expr Operator.GT right) rest1
    | Token.LTE :: rest =>
      match parseAdditive fuel rest with
      | Except.error e => Except.error e
      | Except.ok (right, rest1) =>
        parseComparisonLoop fuel (ASTNode.BinaryOp expr Operator.LTE right) rest1
    | Token.GTE :: rest =>
      match parseAdditive fuel rest with
      | Except.error e => Except.error e
      | Except.ok (right, rest1) =>
        parseComparisonLoop fuel (ASTNode.BinaryOp expr Operator.GTE right) rest1
    | Token.EQ :: rest =>
      match parseAdditive fuel rest with
      | Except.error e => Except.error e
      | Except.ok (right, rest1) =>
        parseComparisonLoop fuel (ASTNode.BinaryOp expr Operator.EQ right) rest1
    | Token.NEQ :: rest =>
      match parseAdditive fuel rest with
      | Except.error e => Except.error e
      | Except.ok (right, rest1) =>
        parseComparisonLoop fuel (ASTNode.BinaryOp expr Operator.NEQ right) rest1
    | _ => Except.ok (expr, toks)

/-- Parser.parse_additive: one multiplicative operand, then the
additive loop. -/
def parseAdditive : Nat → List Token → Except Str (ASTNode × List Token)
  | 0, _ => Except.error outOfFuel
  | fuel + 1, toks =>
    match parseMultiplicative fuel toks with
    | Except.error e => Except.error e
    | Except.ok (left, rest) => parseAdditiveLoop fuel left rest

/-- The loop of parse_additive over plus and minus. -/
def parseAdditiveLoop : Nat → ASTNode → List Token → Except Str (ASTNode × List Token)
  | 0, _, _ => Except.error outOfFuel
  | fuel + 1, left, toks =>
    match toks with
    | Token.Plus :: rest =>
      match parseMultiplicative fuel rest with
      | Except.error e => Except.error e
      | Except.ok (right, rest1) =>
        parseAdditiveLoop fuel (ASTNode.BinaryOp left Operator.Plus right) rest1
    | Token.Minus :: rest =>
      match parseMultiplicative fuel rest with
      | Except.error e => Except.error e
      | Except.ok (right, rest1) =>
        parseAdditiveLoop fuel (ASTNode.BinaryOp left Operator.Minus right) rest1
    | _ => Except.ok (left, toks)

/-- Parser.parse_multiplicative: one primary operand, then the
multiplicative loop. -/
def parseMultiplicative : Nat → List Token → Except Str (ASTNode × List Token)
  | 0, _ => Except.error outOfFuel
  | fuel + 1, toks =>
    match parsePrimary fuel toks with
    | Except.error e => Except.error e
    | Except.ok (left, rest) => parseMultiplicativeLoop fuel left rest

/-- The loop of parse_multiplicative over multiply and divide. -/
def parseMultiplicativeLoop : Nat → ASTNode → List Token → Except Str (ASTNode × List Token)
  | 0, _, _ => Except.error outOfFuel
  | fuel + 1, left, toks =>
    match toks with
    | Token.Multiply :: rest =>
      match parsePrimary fuel rest with
      | Except.error e => Except.error e
      | Except.ok (right, rest1) =>
        parseMultiplicativeLoop fuel (ASTNode.BinaryOp left Operator.Multiply right) rest1
    | Token.Divide :: rest =>
      match parsePrimary fuel rest with
      | Except.error e => Except.error e
      | Except.ok (right, rest1) =>
        parseMultiplicativeLoop fuel (ASTNode.BinaryOp left Operator.Divide right) rest1
    | _ => Except.ok (left, toks)

/-- Parser.parse_primary: literals, identifiers and parenthesised
expressions; anything else is the unexpected-token error. -/
def parsePrimary : Nat → List Token → Except Str (ASTNode × List Token)
  | 0, _ => Except.error outOfFuel
  | fuel + 1, toks =>
    match toks with
    | Token.Number n :: rest => Except.ok (ASTNode.Number n, rest)
    | Token.String s :: rest => Except.ok (ASTNode.StringLiteral s, rest)
    | Token.True :: rest => Except.ok (ASTNode.BooleanLiteral true, rest)
    | Token.False :: rest => Except.ok (ASTNode.BooleanLiteral false, rest)
    | Token.Identifier name :: rest => Except.ok (ASTNode.Variable name, rest)
    | Token.LeftParen :: rest =>
      match parseExpression fuel rest with
      | Except.error e => Except.error e
      | Except.ok (expr, rest1) =>
        match expect Token.RightParen rest1 with
        | Except.error e => Except.error e
        | Except.ok rest2 => Except.ok (expr, rest2)
    | _ => Except.error "Unexpected token"

/-- Parser.parse_if_statement: consume the keyword, parse the
condition, require the then keyword, collect the then branch, and
collect an else branch when the else keyword follows. -/
def parseIfStatement : Nat → List Token → Except Str (ASTNode × List Token)
  | 0, _ => Except.error outOfFuel
  | fuel + 1, toks =>
    match toks with
    | _ :: rest0 =>
      match parseExpression fuel rest0 with
      | Except.error e => Except.error e
      | Except.ok (condition, rest1) =>
        match expect Token.ThenKeyword rest1 with
        | Except.error e => Except.error e
        | Except.ok rest2 =>
          match parseThenBranch fuel rest2 with
          | Except.error e => Except.error e
          | Except.ok (thenBranch, rest3) =>
            match rest3 with
            | Token.ElseKeyword :: rest4 =>
              match parseElseBranch fuel rest4 with
              | Except.error e => Except.error e
              | Except.ok (elseStatements, rest5) =>
                Except.ok (ASTNode.IfStatement condition thenBranch (some elseStatements), rest5)
            | _ => Except.ok (ASTNode.IfStatement condition thenBranch none, rest3)
    | [] => Except.error "Unexpected token"

/-- The then-branch loop of parse_if_statement: statements until the
else keyword is peeked or the input ends. -/
def parseThenBranch : Nat → List Token → Except Str (List ASTNode × List Token)
  | 0, _ => Except.error outOfFuel
  | fuel + 1, toks =>
    match toks with
    | [] => Except.ok ([], [])
    | Token.ElseKeyword :: _ => Except.ok ([], toks)
    | _ =>
      match parseStatement fuel toks with
      | Except.error e => Except.error e
      | Except.ok (stmt, rest) =>
        match parseThenBranch fuel rest with
        | Except.error e => Except.error e
        | Except.ok (stmts, rest1) => Except.ok (stmt :: stmts, rest1)

/-- The else-branch loop of parse_if_statement: all remaining
statements to the end of input. -/
def parseElseBranch : Nat → List Token → Except Str (List ASTNode × List Token)
  | 0, _ => Except.error outOfFuel
  | fuel + 1, toks =>
    match toks with
    | [] => Except.ok ([], [])
    | _ =>
      match parseStatement fuel toks with
      | Except.error e => Except.error e
      | Except.ok (stmt, rest) =>
        match parseElseBranch fuel rest with
        | Except.error e => Except.error e
        | Except.ok (stmts, rest1) => Except.ok (stmt :: stmts, rest1)

end

/-- Parser.parse: statements while tokens remain. -/
def parseProgram : Nat → List Token → Except Str (List ASTNode)
  | _, [] => Except.ok []
  | 0, _ :: _ => Except.error outOfFuel
  | fuel + 1, toks =>
    match parseStatement fuel toks with
    | Except.error e => Except.error e
    | Except.ok (stmt, rest) =>
      match parseProgram fuel rest with
      | Except.error e => Except.error e
      | Except.ok stmts => Except.ok (stmt :: stmts)

/-- Fuel passed to the parser by the run wrapper; generous enough for
every concrete program considered below. -/
def parserFuel (tokens : List Token) : Nat := 8 * tokens.length + 64

/-- The parser stage entry point run.  In the source a parse error is
turned into a panic, which aborts instead of returning; the abort is
modelled as none. -/
def parserRun (tokens : List Token) : Option (List ASTNode) :=
  match parseProgram (parserFuel tokens) tokens with
  | Except.ok ast => some ast
  | Except.error _ => none

/-! Values, environment and evaluator, from interpreter.rs. -/

inductive Value where
  | Number : ℚ → Value
  | String : Str → Value
  | Boolean : Bool → Value
deriving DecidableEq, Repr

/-- The variable map, modelled as an association list; insert
overwrites the existing binding for a key, matching map semantics. -/
abbrev Env := List (Str × Value)

/-- Outcome of evaluating one node: a value, a runtime error carried in
a Result, or a panic, which in the source aborts the process (the
string-by-string todo branch). -/
inductive Outcome where
  | ok : Value → Outcome
  | err : Str → Outcome
  | panicked : Outcome
deriving DecidableEq, Repr

/-- Lookup in the variable map. -/
def envGet : Env → Str → Option Value
  | [], _ => none
  | (k, v) :: rest, name => if k = name then some v else envGet rest name

/-- Insert into the variable map, overwriting an existing binding. -/
def envInsert : Env → Str → Value → Env
  | [], k, v => [(k, v)]
  | (k0, v0) :: rest, k, v =>
    if k0 = k then (k, v) :: rest else (k0, v0) :: envInsert rest k v

/-- The machine epsilon of a 64-bit float, used by the epsilon-tolerant
numeric equality. -/
def machineEpsilon : ℚ := 1 / 4503599627370496

/-- Interpreter.evaluate_binary_op, by operand-type pairing.  The
string-by-string arm is the todo macro in the source, which panics. -/
def evaluateBinaryOp (operator : Operator) (left right : Value) : Outcome :=
  match left, right with
  | Value.Number l, Value.Number r =>
    match operator with
    | Operator.Plus => Outcome.ok (Value.Number (l + r))
    | Operator.Minus => Outcome.ok (Value.Number (l - r))
    | Operator.Multiply => Outcome.ok (Value.Number (l * r))
    | Operator.Divide =>
      if r = 0 then Outcome.err "Division by zero"
      else Outcome.ok (Value.Number (l / r))
    | Operator.LT => Outcome.ok (Value.Boolean (decide (l < r)))
    | Operator.GT => Outcome.ok (Value.Boolean (decide (r < l)))
    | Operator.LTE => Outcome.ok (Value.Boolean (decide (l ≤ r)))
    | Operator.GTE => Outcome.ok (Value.Boolean (decide (r ≤ l)))
    | Operator.EQ => Outcome.ok (Value.Boolean (decide (|l - r| < machineEpsilon)))
    | Operator.NEQ => Outcome.ok (Value.Boolean (decide (machineEpsilon ≤ |l - r|)))
    | op => Outcome.err ("Unknown operator for numbers: " ++ operatorDebug op)
  | Value.Boolean l, Value.Boolean r =>
    match operator with
    | Operator.And => Outcome.ok (Value.Boolean (l && r))
    | Operator.Or => Outcome.ok (Value.Boolean (l || r))
    | op => Outcome.err ("Unknown operator for booleans: " ++ operatorDebug op)
  | Value.String _, Value.String _ => Outcome.panicked
  | _, _ => Outcome.err "Type mismatch in binary operation"

mutual

/-- Interpreter.execute.  The mutable variable map becomes an explicit
environment threaded through and returned alongside the outcome.  The
two if-statement arms correspond to the source match arms on the
condition value, split on whether an else branch is present. -/
def execute : ASTNode → Env → Outcome × Env
  | ASTNode.Number n, env => (Outcome.ok (Value.Number n), env)
  | ASTNode.StringLiteral s, env => (Outcome.ok (Value.String s), env)
  | ASTNode.Variable name, env =>
    match envGet env name with
    | some v => (Outcome.ok v, env)
    | none => (Outcome.err ("Undefined variable: " ++ name), env)
  | ASTNode.BinaryOp left operator right, env =>
    match execute left env with
    | (Outcome.ok leftVal, env1) =>
      match execute right env1 with
      | (Outcome.ok rightVal, env2) => (evaluateBinaryOp operator leftVal rightVal, env2)
      | other => other
    | other => other
  | ASTNode.VariableDeclaration varName value, env =>
    match execute value env with
    | (Outcome.ok v, env1) => (Outcome.ok v, envInsert env1 varName v)
    | other => other
  | ASTNode.IfStatement condition thenBranch (some elseStatements), env =>
    match execute condition env with
    | (Outcome.ok (Value.Boolean true), env1) =>
      match execList thenBranch env1 with
      | (Outcome.ok _, env2) => (Outcome.ok (Value.Boolean true), env2)
      | other => other
    | (Outcome.ok (Value.Boolean false), env1) =>
      match execList elseStatements env1 with
      | (Outcome.ok _, env2) => (Outcome.ok (Value.Boolean true), env2)
      | other => other
    | (Outcome.ok _, env1) => (Outcome.err "Condition must evaluate to a boolean", env1)
    | other => other
  | ASTNode.IfStatement condition thenBranch none, env =>
    match execute condition env with
    | (Outcome.ok (Value.Boolean true), env1) =>
      match execList thenBranch env1 with
      | (Outcome.ok _, env2) => (Outcome.ok (Value.Boolean true), env2)
      | other => other
    | (Outcome.ok (Value.Boolean false), env1) => (Outcome.ok (Value.Boolean true), env1)
    | (Outcome.ok _, env1) => (Outcome.err "Condition must evaluate to a boolean", env1)
    | other => other
  | ASTNode.BooleanLiteral b, env => (Outcome.ok (Value.Boolean b), env)
termination_by node env => sizeOf node

/-- The branch loop inside the if-statement arm of execute: run each
statement in order, stopping at the first error; the loop itself yields
no value, so on success a placeholder value is returned and every
caller discards it. -/
def execList : List ASTNode → Env → Outcome × Env
  | [], env => (Outcome.ok (Value.Boolean true), env)
  | stmt :: rest, env =>
    match execute stmt env with
    | (Outcome.ok _, env1) => execList rest env1
    | other => other
termination_by l env => sizeOf l

end

/-- Result of the whole interpretation run, from Interpreter.interpret:
unit on success, the first runtime error otherwise, or a panic. -/
inductive InterpResult where
  | ok : InterpResult
  | err : Str → InterpResult
  | panicked : InterpResult
deriving DecidableEq, Repr

/-- Interpreter.interpret: execute each top-level statement in order,
stopping at the first error, and report the final environment. -/
def interpret : List ASTNode → Env → InterpResult × Env
  | [], env => (InterpResult.ok, env)
  | stmt :: rest, env =>
    match execute stmt env with
    | (Outcome.ok _, env1) => interpret rest env1
    | (Outcome.err m, env1) => (InterpResult.err m, env1)
    | (Outcome.panicked, env1) => (InterpResult.panicked, env1)

/-! Specification-side definitions used to state the claims. -/

/-- The set of characters the scanning rules of next_token recognize:
whitespace, the single-character tokens, a quote, a digit, or an
identifier-starting letter. -/
def lexerRecognizes (c : Char) : Bool :=
  rustIsWhitespace c || c = '+' || c = '-' || c = '*' || c = '/' ||
  c = '<' || c = '>' || c = '(' || c = ')' || c = '=' || c = '.' ||
  c = '"' || isArabicDigit c || isArabicLetterStart c

/-- Numeric value of one Arabic-Indic digit character. -/
def arabicDigitNat (c : Char) : Nat :=
  if c = '٠' then 0
  else if c = '١' then 1
  else if c = '٢' then 2
  else if c = '٣' then 3
  else if c = '٤' then 4
  else if c = '٥' then 5
  else if c = '٦' then 6
  else if c = '٧' then 7
  else if c = '٨' then 8
  else if c = '٩' then 9
  else 0

/-- Base-10 place-value sum of a digit sequence, the reference value
the specification describes for numeral conversion. -/
def digitsPlaceValue (cs : List Char) : Nat :=
  cs.foldl (fun acc c => 10 * acc + arabicDigitNat c) 0

/-- Holds when the input, scanned with the read_string escape rule,
reaches the end without an unescaped closing quote.  The Bool is the
escaped flag. -/
def noClosingQuote : List Char → Bool → Bool
  | [], _ => true
  | _ :: rest, true => noClosingQuote rest false
  | c :: rest, false =>
    if c = '"' then false
    else noClosingQuote rest (c = '\\')

/-- Reference description of the text read_string keeps: an escaped
character is copied verbatim, an unescaped backslash only marks the
next character, and every other character is copied. -/
def keptChars : List Char → Bool → List Char
  | [], _ => []
  | c :: rest, true => c :: keptChars rest false
  | c :: rest, false =>
    if c = '\\' then keptChars rest true
    else c :: keptChars rest false

/-- Whether an operator is the greater-than tag. -/
def isGTOperator : Operator → Bool
  | Operator.GT => true
  | _ => false

mutual

/-- No binary-operation node anywhere in the tree carries the
greater-than operator. -/
def astNoGT : ASTNode → Bool
  | ASTNode.Number _ => true
  | ASTNode.StringLiteral _ => true
  | ASTNode.BooleanLiteral _ => true
  | ASTNode.Variable _ => true
  | ASTNode.IfStatement c tb (some el) => astNoGT c && astListNoGT tb && astListNoGT el
  | ASTNode.IfStatement c tb none => astNoGT c && astListNoGT tb
  | ASTNode.BinaryOp l op r => astNoGT l && !isGTOperator op && astNoGT r
  | ASTNode.VariableDeclaration _ v => astNoGT v
termination_by node => sizeOf node

/-- astNoGT over every statement of a list. -/
def astListNoGT : List ASTNode → Bool
  | [] => true
  | s :: rest => astNoGT s && astListNoGT rest
termination_by l => sizeOf l

end


/-! Helper lemmas. -/

/-- A character recognized by none of the scanning rules makes
next_token consume it and return none. -/
theorem nextToken_unrecognized (c : Char) (rest : List Char)
    (h : lexerRecognizes c = false) : nextToken (c :: rest) = (none, rest) := by
  simp only [lexerRecognizes, Bool.or_eq_false_iff, decide_eq_false_iff_not] at h
  simp_all [nextToken, List.dropWhile_cons]

/-! Claim theorems. -/

/-- C1, counterexample to the claim as stated: in the source ٢!٣, the
exclamation mark matches no rule, and the lexer stops there instead of
continuing, so the Number 3 token that follows it is never produced. -/
theorem C1_counterexample :
    lexRun "٢!٣" = [Token.Number 2] ∧ Token.Number 3 ∉ lexRun "٢!٣" := by
  have h : lexRun "٢!٣" = [Token.Number 2] := by
    simp +decide [lexRun, lexGo, nextToken, readNumber, arabicNumeralToFloat, arabicDigitStep,
      List.dropWhile_cons, List.takeWhile_cons, List.foldl_cons]
  refine ⟨h, ?_⟩
  rw [h]
  norm_num

/-- C1, amended: for a character matched by no recognition rule, the
lexer emits no token and raises no error, but it does not continue
scanning: next_token returns none, the driving loop interprets none as
end of input, and no token after the unrecognized character is
produced. -/
theorem C1_unrecognized_character_halts_lexer (c : Char) (h : lexerRecognizes c = false)
    (fuel : Nat) (rest : List Char) :
    nextToken (c :: rest) = (none, rest) ∧ lexGo fuel (c :: rest) = [] := by
  have hn := nextToken_unrecognized c rest h
  refine ⟨hn, ?_⟩
  cases fuel with
  | zero => rfl
  | succ n => simp [lexGo, hn]

/-- Witness for C1 at the concrete unrecognized character of the
counterexample input. -/
theorem C1_witness :
    nextToken ['!', '٣'] = (none, ['٣']) ∧ lexGo 2 ['!', '٣'] = [] :=
  C1_unrecognized_character_halts_lexer '!' (by decide) 2 ['٣']

/-- C2, counterexample to the claim as stated: the evaluator panics
(the todo branch) on a binary operation over two strings instead of
returning an error value, and the parser stage run wrapper turns a
parse error into a panic, modelled as none, instead of returning the
error. -/
theorem C2_counterexample :
    execute (ASTNode.BinaryOp (ASTNode.StringLiteral "ا") Operator.Plus
      (ASTNode.StringLiteral "ب")) [] = (Outcome.panicked, []) ∧
    parserRun [Token.Dot] = none := by
  constructor
  · simp [execute, evaluateBinaryOp]
  · simp +decide [parserRun, parserFuel, parseProgram, parseStatement, parseExpression,
      parseComparison, parseComparisonLoop, parseAdditive, parseAdditiveLoop,
      parseMultiplicative, parseMultiplicativeLoop, parsePrimary, expect]

/-- C2, amended: the inner parse function always returns either a
statement list or a single error value, and the run wrapper panics
exactly when it returns the error; the evaluator's binary-operation
dispatch returns a value or a single error value except on two string
operands, where it panics. -/
theorem C2_stage_result_discipline :
    (∀ op l r, evaluateBinaryOp op l r = Outcome.panicked ↔
      (∃ s t, l = Value.String s ∧ r = Value.String t)) ∧
    (∀ toks, (∃ ast, parserRun toks = some ast ∧
        parseProgram (parserFuel toks) toks = Except.ok ast) ∨
      (∃ e, parserRun toks = none ∧
        parseProgram (parserFuel toks) toks = Except.error e)) := by
  constructor
  · intro op l r
    cases l <;> cases r <;> cases op <;>
      simp [evaluateBinaryOp] <;> split <;> simp
  · intro toks
    cases h : parseProgram (parserFuel toks) toks with
    | ok ast =>
      refine Or.inl ⟨ast, ?_, rfl⟩
      simp [parserRun, h]
    | error e =>
      refine Or.inr ⟨e, ?_, rfl⟩
      simp [parserRun, h]

/-- Witness for C2 at a concrete string-by-string operation: the
panic case of the amended characterization. -/
theorem C2_witness :
    evaluateBinaryOp Operator.Plus (Value.String "ا") (Value.String "ب") = Outcome.panicked :=
  (C2_stage_result_discipline.1 Operator.Plus (Value.String "ا") (Value.String "ب")).mpr
    ⟨"ا", "ب", rfl, rfl⟩

/-- C3, counterexample to the claim as stated: in the numeral ١,٢ the
digit after the separator keeps accumulating into the value built
before it, giving twelve, the same value as the separator-free ١٢; the
separator is no boundary at all. -/
theorem C3_counterexample :
    arabicNumeralToFloat (String.data "١,٢") = 12 ∧
    arabicNumeralToFloat (String.data "١,٢") = arabicNumeralToFloat (String.data "١٢") := by
  refine ⟨?_, ?_⟩ <;> simp +decide [arabicNumeralToFloat, arabicDigitStep, List.foldl_cons] <;>
    norm_num

/-- C3, amended: the separator is consumed and leaves the running
accumulator unchanged, so digits after it continue the place-value
accumulation exactly as if the separator were absent. -/
theorem C3_separator_ignored_not_boundary (pre post : List Char) :
    arabicNumeralToFloat (pre ++ ',' :: post) = arabicNumeralToFloat (pre ++ post) := by
  unfold arabicNumeralToFloat
  rw [List.foldl_append, List.foldl_append, List.foldl_cons]
  have hstep : arabicDigitStep (List.foldl arabicDigitStep 0 pre) ',' =
      List.foldl arabicDigitStep 0 pre := by
    simp +decide [arabicDigitStep]
  rw [hstep]

/-- C6: when the condition of an if statement evaluates to a boolean,
a true condition runs exactly the then-branch statements in order, a
false condition runs exactly the else-branch statements when present
and nothing otherwise, and in all three cases the if statement itself
results in Boolean true (when the executed branch does not fail). -/
theorem C6_if_statement_semantics (condition : ASTNode) (tb : List ASTNode)
    (eb : Option (List ASTNode)) (env env1 : Env) (b : Bool)
    (h : execute condition env = (Outcome.ok (Value.Boolean b), env1)) :
    (b = true → execute (ASTNode.IfStatement condition tb eb) env =
      (match execList tb env1 with
       | (Outcome.ok _, env2) => (Outcome.ok (Value.Boolean true), env2)
       | other => other)) ∧
    (b = false → eb = none →
      execute (ASTNode.IfStatement condition tb eb) env = (Outcome.ok (Value.Boolean true), env1)) ∧
    (∀ el, b = false → eb = some el →
      execute (ASTNode.IfStatement condition tb eb) env =
        (match execList el env1 with
         | (Outcome.ok _, env2) => (Outcome.ok (Value.Boolean true), env2)
         | other => other)) := by
  refine ⟨?_, ?_, ?_⟩
  · rintro rfl
    cases eb with
    | none => rw [execute, h]
    | some el => rw [execute, h]
  · rintro rfl rfl
    rw [execute, h]
  · rintro el rfl rfl
    rw [execute, h]

/-- Witness for C6 at a concrete boolean condition and branch. -/
theorem C6_witness :
    execute (ASTNode.IfStatement (ASTNode.BooleanLiteral true) [ASTNode.Number 1] none) [] =
      (match execList [ASTNode.Number 1] [] with
       | (Outcome.ok _, env2) => (Outcome.ok (Value.Boolean true), env2)
       | other => other) :=
  (C6_if_statement_semantics (ASTNode.BooleanLiteral true) [ASTNode.Number 1] none [] [] true
    (by simp [execute])).1 rfl

/-- C7: on the source ٢ + ٣ * ٤ . the pipeline parses the
multiplication as the right operand of the addition, and evaluating the
resulting tree yields Number 14, not Number 20. -/
theorem C7_multiplication_binds_tighter :
    parserRun (lexRun "٢ + ٣ * ٤ .") =
      some [ASTNode.BinaryOp (ASTNode.Number 2) Operator.Plus
        (ASTNode.BinaryOp (ASTNode.Number 3) Operator.Multiply (ASTNode.Number 4))] ∧
    execute (ASTNode.BinaryOp (ASTNode.Number 2) Operator.Plus
        (ASTNode.BinaryOp (ASTNode.Number 3) Operator.Multiply (ASTNode.Number 4))) [] =
      (Outcome.ok (Value.Number 14), []) ∧
    Value.Number (14 : ℚ) ≠ Value.Number 20 := by
  refine ⟨?_, ?_, ?_⟩
  · simp +decide [lexRun, lexGo, nextToken, readNumber, arabicNumeralToFloat, arabicDigitStep,
      List.dropWhile_cons, List.takeWhile_cons, List.foldl_cons,
      parserRun, parserFuel, parseProgram, parseStatement, parseExpression,
      parseComparison, parseComparisonLoop, parseAdditive, parseAdditiveLoop,
      parseMultiplicative, parseMultiplicativeLoop, parsePrimary, expect]
  · simp [execute, evaluateBinaryOp]
    norm_num
  · norm_num

/-- C8: a successful statement passes its updated environment to the
rest of the run; a failing statement aborts the run with the
environment as mutated so far, so earlier effects persist; and a
variable declaration whose initializer fails propagates the failure
without inserting its binding. -/
theorem C8_error_keeps_prior_effects :
    (∀ s rest env v env1, execute s env = (Outcome.ok v, env1) →
      interpret (s :: rest) env = interpret rest env1) ∧
    (∀ s rest env m env1, execute s env = (Outcome.err m, env1) →
      interpret (s :: rest) env = (InterpResult.err m, env1)) ∧
    (∀ x e env m env1, execute e env = (Outcome.err m, env1) →
      execute (ASTNode.VariableDeclaration x e) env = (Outcome.err m, env1)) := by
  refine ⟨?_, ?_, ?_⟩
  · intro s rest env v env1 h
    rw [interpret, h]
  · intro s rest env m env1 h
    rw [interpret, h]
  · intro x e env m env1 h
    rw [execute, h]

/-- Witness for C8: a program whose first declaration succeeds and
whose second statement fails ends with the first binding still in the
environment and without any binding from the failing statement. -/
theorem C8_witness :
    interpret [ASTNode.VariableDeclaration "س" (ASTNode.Number 1), ASTNode.Variable "م"] [] =
      (InterpResult.err "Undefined variable: م", [("س", Value.Number 1)]) := by
  have h1 : execute (ASTNode.VariableDeclaration "س" (ASTNode.Number 1)) [] =
      (Outcome.ok (Value.Number 1), [("س", Value.Number 1)]) := by
    simp [execute, envInsert]
  have h2 : execute (ASTNode.Variable "م") [("س", Value.Number 1)] =
      (Outcome.err ("Undefined variable: " ++ "م"), [("س", Value.Number 1)]) := by
    simp +decide [execute, envGet]
  have step1 := C8_error_keeps_prior_effects.1
    (ASTNode.VariableDeclaration "س" (ASTNode.Number 1)) [ASTNode.Variable "م"] []
    (Value.Number 1) [("س", Value.Number 1)] h1
  have step2 := C8_error_keeps_prior_effects.2.1
    (ASTNode.Variable "م") [] [("س", Value.Number 1)]
    ("Undefined variable: " ++ "م") [("س", Value.Number 1)] h2
  rw [step1, step2]
  simp


/-- Every character accepted by the digit-range test is one of the ten
Arabic-Indic digits. -/
theorem arabicDigit_eq_cases (c : Char) (h : isArabicDigit c = true) :
    c = '٠' ∨ c = '١' ∨ c = '٢' ∨ c = '٣' ∨ c = '٤' ∨
    c = '٥' ∨ c = '٦' ∨ c = '٧' ∨ c = '٨' ∨ c = '٩' := by
  simp only [isArabicDigit, Bool.and_eq_true, decide_eq_true_eq] at h
  obtain ⟨h1, h2⟩ := h
  rw [Char.le_def] at h1 h2
  have n1 : 1632 ≤ c.toNat := h1
  have n2 : c.toNat ≤ 1641 := h2
  have hc := Char.ofNat_toNat c
  interval_cases hn : c.toNat <;> subst hc <;> decide

/-- A character consumed by read_number is a digit or the separator. -/
theorem numberChar_cases (c : Char) (h : numberChar c = true) :
    isArabicDigit c = true ∨ c = ',' := by
  simpa [numberChar] using h

/-- On a digit, the conversion step multiplies by ten and adds the
digit value. -/
theorem arabicDigitStep_digit (a : ℚ) (c : Char) (h : isArabicDigit c = true) :
    arabicDigitStep a c = a * 10 + (arabicDigitNat c : ℚ) := by
  rcases arabicDigit_eq_cases c h with rfl | rfl | rfl | rfl | rfl | rfl | rfl | rfl | rfl | rfl <;>
    simp +decide [arabicDigitStep, arabicDigitNat]

/-- On the separator, the conversion step leaves the accumulator
unchanged. -/
theorem arabicDigitStep_comma (a : ℚ) : arabicDigitStep a ',' = a := by
  simp +decide [arabicDigitStep]

/-- Over digit-or-separator characters, the rational fold computes the
natural-number place-value fold of the digits alone, starting from any
natural accumulator. -/
theorem foldDigits_nat (cs : List Char) (hall : ∀ c ∈ cs, numberChar c = true) :
    ∀ a : Nat, List.foldl arabicDigitStep (a : ℚ) cs =
      ((List.foldl (fun acc c => 10 * acc + arabicDigitNat c) a
        (cs.filter isArabicDigit) : Nat) : ℚ) := by
  induction cs with
  | nil => intro a; simp
  | cons c rest ih =>
    intro a
    have hc := hall c (List.mem_cons_self c rest)
    have hrest : ∀ x ∈ rest, numberChar x = true :=
      fun x hx => hall x (List.mem_cons_of_mem _ hx)
    rcases numberChar_cases c hc with hd | hcomma
    · rw [List.foldl_cons, arabicDigitStep_digit _ c hd,
        List.filter_cons_of_pos hd, List.foldl_cons]
      have hcast : (a : ℚ) * 10 + (arabicDigitNat c : ℚ) =
          ((10 * a + arabicDigitNat c : Nat) : ℚ) := by
        push_cast
        ring
      rw [hcast, ih hrest]
    · subst hcomma
      rw [List.foldl_cons, arabicDigitStep_comma,
        List.filter_cons_of_neg (by decide), ih hrest]

/-- C4: for a numeral sequence started by a digit, the value of the
Number token read_number produces is the base-10 place-value sum of the
digit characters collected, every separator ignored. -/
theorem C4_place_value_ignoring_separators (firstDigit : Char) (cs : List Char)
    (h : isArabicDigit firstDigit = true) :
    (readNumber firstDigit cs).1 = Token.Number
      ((digitsPlaceValue ((firstDigit :: cs.takeWhile numberChar).filter isArabicDigit) : Nat) : ℚ) := by
  unfold readNumber digitsPlaceValue arabicNumeralToFloat
  have hall : ∀ c ∈ firstDigit :: cs.takeWhile numberChar, numberChar c = true := by
    intro c hcmem
    rcases List.mem_cons.mp hcmem with rfl | hm
    · simp [numberChar, h]
    · exact List.mem_takeWhile_imp hm
  have hfold := foldDigits_nat _ hall 0
  simpa using hfold

/-- Witness for C4: the digits one to four with a separator in between
produce the token for 1234. -/
theorem C4_witness :
    (readNumber '١' [',', '٢', '٣', '٤']).1 = Token.Number
      ((digitsPlaceValue (('١' :: List.takeWhile numberChar [',', '٢', '٣', '٤']).filter isArabicDigit) : Nat) : ℚ) :=
  C4_place_value_ignoring_separators '١' [',', '٢', '٣', '٤'] (by decide)

/-- The numeral fold always produces a natural number, whatever the
characters, starting from any natural accumulator. -/
theorem foldDigits_always_nat (cs : List Char) :
    ∀ a : Nat, ∃ n : Nat, List.foldl arabicDigitStep (a : ℚ) cs = (n : ℚ) := by
  induction cs with
  | nil => intro a; exact ⟨a, by simp⟩
  | cons c rest ih =>
    intro a
    have hstep : ∃ m : Nat, arabicDigitStep (a : ℚ) c = (m : ℚ) := by
      by_cases hd : isArabicDigit c = true
      · refine ⟨10 * a + arabicDigitNat c, ?_⟩
        rw [arabicDigitStep_digit _ c hd]
        push_cast
        ring
      · by_cases hcm : c = ','
        · subst hcm
          exact ⟨a, arabicDigitStep_comma _⟩
        · have h0 : c ≠ '٠' := fun hc => hd (by rw [hc]; decide)
          have h1 : c ≠ '١' := fun hc => hd (by rw [hc]; decide)
          have h2 : c ≠ '٢' := fun hc => hd (by rw [hc]; decide)
          have h3 : c ≠ '٣' := fun hc => hd (by rw [hc]; decide)
          have h4 : c ≠ '٤' := fun hc => hd (by rw [hc]; decide)
          have h5 : c ≠ '٥' := fun hc => hd (by rw [hc]; decide)
          have h6 : c ≠ '٦' := fun hc => hd (by rw [hc]; decide)
          have h7 : c ≠ '٧' := fun hc => hd (by rw [hc]; decide)
          have h8 : c ≠ '٨' := fun hc => hd (by rw [hc]; decide)
          have h9 : c ≠ '٩' := fun hc => hd (by rw [hc]; decide)
          refine ⟨11 * a, ?_⟩
          simp only [arabicDigitStep, h0, h1, h2, h3, h4, h5, h6, h7, h8, h9, hcm, if_false]
          push_cast
          ring
    obtain ⟨m, hm⟩ := hstep
    obtain ⟨n, hn⟩ := ih m
    exact ⟨n, by rw [List.foldl_cons, hm, hn]⟩

/-- The numeral conversion always yields a natural number. -/
theorem arabicNumeralToFloat_nat (cs : List Char) :
    ∃ n : Nat, arabicNumeralToFloat cs = (n : ℚ) := by
  have h := foldDigits_always_nat cs 0
  simpa [arabicNumeralToFloat] using h

/-- The token built by read_string satisfies the per-token soundness
properties: it is no comparison operator and carries no number. -/
theorem tokenProp_string (cs : List Char) :
    ((readString cs).1 ≠ Token.GT ∧ (readString cs).1 ≠ Token.GTE ∧
      (readString cs).1 ≠ Token.LTE ∧ (readString cs).1 ≠ Token.EQ ∧
      (readString cs).1 ≠ Token.NEQ) ∧
    ∀ q, (readString cs).1 = Token.Number q → ∃ n : Nat, q = (n : ℚ) := by
  exact ⟨by simp [readString], by simp [readString]⟩

/-- The token built by read_number satisfies the per-token soundness
properties: it is no comparison operator and its value is a natural
number. -/
theorem tokenProp_number (c : Char) (cs : List Char) :
    (((readNumber c cs).1 ≠ Token.GT ∧ (readNumber c cs).1 ≠ Token.GTE ∧
      (readNumber c cs).1 ≠ Token.LTE ∧ (readNumber c cs).1 ≠ Token.EQ ∧
      (readNumber c cs).1 ≠ Token.NEQ)) ∧
    ∀ q, (readNumber c cs).1 = Token.Number q → ∃ n : Nat, q = (n : ℚ) := by
  refine ⟨by simp [readNumber], ?_⟩
  intro q hq
  simp only [readNumber, Token.Number.injEq] at hq
  obtain ⟨n, hn⟩ := arabicNumeralToFloat_nat (c :: cs.takeWhile numberChar)
  exact ⟨n, hq ▸ hn⟩

/-- The token built by read_identifier_or_keyword satisfies the
per-token soundness properties: a keyword or identifier, never a
comparison operator or a number. -/
theorem tokenProp_identifier (c : Char) (cs : List Char) :
    (((readIdentifierOrKeyword c cs).1 ≠ Token.GT ∧
      (readIdentifierOrKeyword c cs).1 ≠ Token.GTE ∧
      (readIdentifierOrKeyword c cs).1 ≠ Token.LTE ∧
      (readIdentifierOrKeyword c cs).1 ≠ Token.EQ ∧
      (readIdentifierOrKeyword c cs).1 ≠ Token.NEQ)) ∧
    ∀ q, (readIdentifierOrKeyword c cs).1 = Token.Number q → ∃ n : Nat, q = (n : ℚ) := by
  simp only [readIdentifierOrKeyword]
  split_ifs <;> exact ⟨by simp, by simp⟩

/-- Soundness of one next_token step: the produced token is never one
of the comparison tokens the scanner cannot build, and if it is a
Number token its value is a natural number. -/
theorem nextToken_sound (cs : List Char) (t : Token) (rest : List Char)
    (h : nextToken cs = (some t, rest)) :
    (t ≠ Token.GT ∧ t ≠ Token.GTE ∧ t ≠ Token.LTE ∧ t ≠ Token.EQ ∧ t ≠ Token.NEQ) ∧
    ∀ q, t = Token.Number q → ∃ n : Nat, q = (n : ℚ) := by
  unfold nextToken at h
  split at h
  next => simp at h
  next ch rest0 heq =>
    by_cases h1 : ch = '+'
    case pos =>
      rw [if_pos h1] at h
      simp only [Prod.mk.injEq, Option.some.injEq] at h
      obtain ⟨ht, hr⟩ := h
      subst ht
      exact ⟨by simp, by simp⟩
    case neg =>
    rw [if_neg h1] at h
    by_cases h2 : ch = '-'
    case pos =>
      rw [if_pos h2] at h
      simp only [Prod.mk.injEq, Option.some.injEq] at h
      obtain ⟨ht, hr⟩ := h
      subst ht
      exact ⟨by simp, by simp⟩
    case neg =>
    rw [if_neg h2] at h
    by_cases h3 : ch = '*'
    case pos =>
      rw [if_pos h3] at h
      simp only [Prod.mk.injEq, Option.some.injEq] at h
      obtain ⟨ht, hr⟩ := h
      subst ht
      exact ⟨by simp, by simp⟩
    case neg =>
    rw [if_neg h3] at h
    by_cases h4 : ch = '/'
    case pos =>
      rw [if_pos h4] at h
      simp only [Prod.mk.injEq, Option.some.injEq] at h
      obtain ⟨ht, hr⟩ := h
      subst ht
      exact ⟨by simp, by simp⟩
    case neg =>
    rw [if_neg h4] at h
    by_cases h5 : ch = '<'
    case pos =>
      rw [if_pos h5] at h
      simp only [Prod.mk.injEq, Option.some.injEq] at h
      obtain ⟨ht, hr⟩ := h
      subst ht
      exact ⟨by simp, by simp⟩
    case neg =>
    rw [if_neg h5] at h
    by_cases h6 : ch = '>'
    case pos =>
      rw [if_pos h6] at h
      simp only [Prod.mk.injEq, Option.some.injEq] at h
      obtain ⟨ht, hr⟩ := h
      subst ht
      exact ⟨by simp, by simp⟩
    case neg =>
    rw [if_neg h6] at h
    by_cases h7 : ch = '('
    case pos =>
      rw [if_pos h7] at h
      simp only [Prod.mk.injEq, Option.some.injEq] at h
      obtain ⟨ht, hr⟩ := h
      subst ht
      exact ⟨by simp, by simp⟩
    case neg =>
    rw [if_neg h7] at h
    by_cases h8 : ch = ')'
    case pos =>
      rw [if_pos h8] at h
      simp only [Prod.mk.injEq, Option.some.injEq] at h
      obtain ⟨ht, hr⟩ := h
      subst ht
      exact ⟨by simp, by simp⟩
    case neg =>
    rw [if_neg h8] at h
    by_cases h9 : ch = '='
    case pos =>
      rw [if_pos h9] at h
      simp only [Prod.mk.injEq, Option.some.injEq] at h
      obtain ⟨ht, hr⟩ := h
      subst ht
      exact ⟨by simp, by simp⟩
    case neg =>
    rw [if_neg h9] at h
    by_cases h10 : ch = '.'
    case pos =>
      rw [if_pos h10] at h
      simp only [Prod.mk.injEq, Option.some.injEq] at h
      obtain ⟨ht, hr⟩ := h
      subst ht
      exact ⟨by simp, by simp⟩
    case neg =>
    rw [if_neg h10] at h
    by_cases h11 : ch = '"'
    case pos =>
      rw [if_pos h11] at h
      simp only [Prod.mk.injEq, Option.some.injEq] at h
      obtain ⟨ht, hr⟩ := h
      subst ht
      exact tokenProp_string rest0
    case neg =>
    rw [if_neg h11] at h
    by_cases h12 : isArabicDigit ch = true
    case pos =>
      rw [if_pos h12] at h
      simp only [Prod.mk.injEq, Option.some.injEq] at h
      obtain ⟨ht, hr⟩ := h
      subst ht
      exact tokenProp_number ch rest0
    case neg =>
    rw [if_neg h12] at h
    by_cases h13 : isArabicLetterStart ch = true
    case pos =>
      rw [if_pos h13] at h
      simp only [Prod.mk.injEq, Option.some.injEq] at h
      obtain ⟨ht, hr⟩ := h
      subst ht
      exact tokenProp_identifier ch rest0
    case neg =>
    rw [if_neg h13] at h
    simp at h

/-- Any Number token produced by one next_token step carries a
natural-number value. -/
theorem nextToken_number_nat (cs : List Char) (q : ℚ) (rest : List Char)
    (h : nextToken cs = (some (Token.Number q), rest)) : ∃ n : Nat, q = (n : ℚ) :=
  (nextToken_sound cs (Token.Number q) rest h).2 q rfl

/-- Any Number token anywhere in the token stream carries a
natural-number value. -/
theorem lexGo_number_nat (fuel : Nat) :
    ∀ cs q, Token.Number q ∈ lexGo fuel cs → ∃ n : Nat, q = (n : ℚ) := by
  induction fuel with
  | zero => intro cs q h; simp [lexGo] at h
  | succ m ih =>
    intro cs q h
    rw [lexGo] at h
    cases hnt : nextToken cs with
    | mk opt rest =>
      rw [hnt] at h
      cases opt with
      | none => simp at h
      | some t =>
        simp only [List.mem_cons] at h
        rcases h with rfl | hmem
        · exact nextToken_number_nat cs q rest hnt
        · exact ih rest q hmem

/-- C10: every Number token the lexer produces holds a non-negative
value with no fractional component: the lexer has no sign and no
fractional syntax, and the value is always a natural number. -/
theorem C10_number_tokens_nonneg_integral (input : Str) (q : ℚ)
    (h : Token.Number q ∈ lexRun input) : 0 ≤ q ∧ ∃ n : Nat, q = (n : ℚ) := by
  obtain ⟨n, rfl⟩ := lexGo_number_nat _ _ _ h
  exact ⟨by positivity, n, rfl⟩

/-- Witness for C10 on a concrete two-digit numeral. -/
theorem C10_witness : 0 ≤ (12 : ℚ) ∧ ∃ n : Nat, (12 : ℚ) = (n : ℚ) :=
  C10_number_tokens_nonneg_integral "١٢" 12 (by
    have h : lexRun "١٢" = [Token.Number 12] := by
      simp +decide [lexRun, lexGo, nextToken, readNumber, arabicNumeralToFloat,
        arabicDigitStep, List.dropWhile_cons, List.takeWhile_cons, List.foldl_cons]
      norm_num
    rw [h]
    simp)

/-- When no unescaped closing quote remains, the read_string loop
consumes the whole input and keeps exactly the characters the escape
rule copies. -/
theorem readStringGo_no_quote (cs : List Char) :
    ∀ esc, noClosingQuote cs esc = true → readStringGo cs esc = (keptChars cs esc, []) := by
  induction cs with
  | nil => intro esc h; cases esc <;> rfl
  | cons c rest ih =>
    intro esc h
    cases esc with
    | true =>
      rw [noClosingQuote] at h
      rw [readStringGo, keptChars, ih false h]
    | false =>
      rw [noClosingQuote] at h
      by_cases hq : c = '"'
      · simp [hq] at h
      · by_cases hb : c = '\\'
        · subst hb
          rw [readStringGo, keptChars]
          simp only [if_neg hq, if_pos rfl]
          simp only [if_neg hq] at h
          have h2 : noClosingQuote rest true = true := by simpa using h
          exact ih true h2
        · rw [readStringGo, keptChars]
          simp only [if_neg hq, if_neg hb]
          simp only [if_neg hq] at h
          have h2 : noClosingQuote rest false = true := by simpa [hb] using h
          rw [ih false h2]

/-- C9: when a string literal is opened and the input ends before any
unescaped closing quote, the lexer still produces a String token (no
error), consumes the whole input, and the token text keeps every
character the escape rule copies, escaped characters verbatim. -/
theorem C9_unterminated_string_tolerated (cs : List Char)
    (h : noClosingQuote cs false = true) :
    nextToken ('"' :: cs) = (some (Token.String (String.mk (keptChars cs false))), []) := by
  have hr := readStringGo_no_quote cs false h
  simp +decide [nextToken, List.dropWhile_cons, readString, hr]

/-- Witness for C9 on an unterminated literal whose final quote is
escaped. -/
theorem C9_witness :
    nextToken ('"' :: ['ا', '\\', '"']) =
      (some (Token.String (String.mk (keptChars ['ا', '\\', '"'] false))), []) :=
  C9_unterminated_string_tolerated ['ا', '\\', '"'] (by decide)


/-- Splitting a no-greater-than-token fact over a cons cell. -/
theorem noGT_cons {t : Token} {ts : List Token} (h : Token.GT ∉ t :: ts) :
    Token.GT ≠ t ∧ Token.GT ∉ ts := by
  simp only [List.mem_cons, not_or] at h
  exact h

/-- The expect step only consumes from the front, so it preserves the
absence of the greater-than token. -/
theorem expect_noGT (t0 : Token) (toks rest : List Token) (hno : Token.GT ∉ toks)
    (h : expect t0 toks = Except.ok rest) : Token.GT ∉ rest := by
  cases toks with
  | nil => simp [expect] at h
  | cons t ts =>
    rw [expect] at h
    by_cases ht : t = t0
    · rw [if_pos ht] at h
      simp only [Except.ok.injEq] at h
      subst h
      exact (noGT_cons hno).2
    · rw [if_neg ht] at h
      simp at h

/-- The greater-than token never reaches the parser from the lexer, so
every parse function, fed tokens free of it, returns a tree free of the
greater-than operator and leftover tokens still free of the token.  One
conjunct per parse function, proved together by induction on fuel. -/
theorem parser_noGT (fuel : Nat) :
    (∀ toks a rest, Token.GT ∉ toks → parseStatement fuel toks = Except.ok (a, rest) →
      astNoGT a = true ∧ Token.GT ∉ rest) ∧
    (∀ toks a rest, Token.GT ∉ toks → parseVariableDeclaration fuel toks = Except.ok (a, rest) →
      astNoGT a = true ∧ Token.GT ∉ rest) ∧
    (∀ toks a rest, Token.GT ∉ toks → parseExpression fuel toks = Except.ok (a, rest) →
      astNoGT a = true ∧ Token.GT ∉ rest) ∧
    (∀ toks a rest, Token.GT ∉ toks → parseComparison fuel toks = Except.ok (a, rest) →
      astNoGT a = true ∧ Token.GT ∉ rest) ∧
    (∀ acc toks a rest, astNoGT acc = true → Token.GT ∉ toks →
      parseComparisonLoop fuel acc toks = Except.ok (a, rest) →
      astNoGT a = true ∧ Token.GT ∉ rest) ∧
    (∀ toks a rest, Token.GT ∉ toks → parseAdditive fuel toks = Except.ok (a, rest) →
      astNoGT a = true ∧ Token.GT ∉ rest) ∧
    (∀ acc toks a rest, astNoGT acc = true → Token.GT ∉ toks →
      parseAdditiveLoop fuel acc toks = Except.ok (a, rest) →
      astNoGT a = true ∧ Token.GT ∉ rest) ∧
    (∀ toks a rest, Token.GT ∉ toks → parseMultiplicative fuel toks = Except.ok (a, rest) →
      astNoGT a = true ∧ Token.GT ∉ rest) ∧
    (∀ acc toks a rest, astNoGT acc = true → Token.GT ∉ toks →
      parseMultiplicativeLoop fuel acc toks = Except.ok (a, rest) →
      astNoGT a = true ∧ Token.GT ∉ rest) ∧
    (∀ toks a rest, Token.GT ∉ toks → parsePrimary fuel toks = Except.ok (a, rest) →
      astNoGT a = true ∧ Token.GT ∉ rest) ∧
    (∀ toks a rest, Token.GT ∉ toks → parseIfStatement fuel toks = Except.ok (a, rest) →
      astNoGT a = true ∧ Token.GT ∉ rest) ∧
    (∀ toks l rest, Token.GT ∉ toks → parseThenBranch fuel toks = Except.ok (l, rest) →
      astListNoGT l = true ∧ Token.GT ∉ rest) ∧
    (∀ toks l rest, Token.GT ∉ toks → parseElseBranch fuel toks = Except.ok (l, rest) →
      astListNoGT l = true ∧ Token.GT ∉ rest) := by
  induction fuel with
  | zero =>
    refine ⟨?_, ?_, ?_, ?_, ?_, ?_, ?_, ?_, ?_, ?_, ?_, ?_, ?_⟩ <;> intro _ _ _ _ <;>
      first
        | (intro hok
           simp [parseStatement, parseVariableDeclaration, parseExpression,
             parseComparison, parseAdditive, parseMultiplicative,
             parsePrimary, parseIfStatement, parseThenBranch, parseElseBranch] at hok)
        | (intro _ _ hok
           simp [parseComparisonLoop, parseAdditiveLoop, parseMultiplicativeLoop] at hok)
  | succ n ih =>
    obtain ⟨ih1, ih2, ih3, ih4, ih5, ih6, ih7, ih8, ih9, ih10, ih11, ih12, ih13⟩ := ih
    refine ⟨?_, ?_, ?_, ?_, ?_, ?_, ?_, ?_, ?_, ?_, ?_, ?_, ?_⟩
    · intro toks a rest hno hok
      rw [parseStatement.eq_def] at hok
      split at hok
      · simp at hok
      · rename_i m hm
        injection hm with hm2
        subst hm2
        split at hok
        · exact ih2 _ _ _ hno hok
        · exact ih11 _ _ _ hno hok
        · split at hok
          · simp at hok
          · rename_i expr rest1 heq
            split at hok
            · simp at hok
            · rename_i rest2 heq2
              simp only [Except.ok.injEq, Prod.mk.injEq] at hok
              obtain ⟨ha, hr⟩ := hok
              subst ha
              subst hr
              obtain ⟨hAst, hRest⟩ := ih3 _ _ _ hno heq
              exact ⟨hAst, expect_noGT _ _ _ hRest heq2⟩
    · intro toks a rest hno hok
      rw [parseVariableDeclaration.eq_def] at hok
      split at hok
      · simp at hok
      · rename_i m hm
        injection hm with hm2
        subst hm2
        split at hok
        · split at hok
          · simp at hok
          · rename_i rest2 heq2
            split at hok
            · simp at hok
            · rename_i value rest3 heq3
              split at hok
              · simp at hok
              · rename_i rest4 heq4
                simp only [Except.ok.injEq, Prod.mk.injEq] at hok
                obtain ⟨ha, hr⟩ := hok
                subst ha
                subst hr
                have hno1 := (noGT_cons (noGT_cons hno).2).2
                have hno2 := expect_noGT _ _ _ hno1 heq2
                obtain ⟨hAst, hRest3⟩ := ih3 _ _ _ hno2 heq3
                refine ⟨?_, expect_noGT _ _ _ hRest3 heq4⟩
                simpa [astNoGT] using hAst
        · simp at hok
    · intro toks a rest hno hok
      rw [parseExpression.eq_def] at hok
      split at hok
      · simp at hok
      · rename_i m hm
        injection hm with hm2
        subst hm2
        exact ih4 _ _ _ hno hok
    · intro toks a rest hno hok
      rw [parseComparison.eq_def] at hok
      split at hok
      · simp at hok
      · rename_i m hm
        injection hm with hm2
        subst hm2
        split at hok
        · simp at hok
        · rename_i expr rest1 heq
          obtain ⟨hAst, hRest⟩ := ih6 _ _ _ hno heq
          exact ih5 _ _ _ _ hAst hRest hok
    · intro acc toks a rest hacc hno hok
      rw [parseComparisonLoop.eq_def] at hok
      split at hok
      · simp at hok
      · rename_i m hm
        injection hm with hm2
        subst hm2
        split at hok
        · split at hok
          · simp at hok
          · rename_i right rest1 heq
            obtain ⟨hR, hRest1⟩ := ih6 _ _ _ (noGT_cons hno).2 heq
            exact ih5 _ _ _ _ (by simp [astNoGT, isGTOperator, hacc, hR]) hRest1 hok
        · exact absurd (List.mem_cons_self _ _) hno
        · split at hok
          · simp at hok
          · rename_i right rest1 heq
            obtain ⟨hR, hRest1⟩ := ih6 _ _ _ (noGT_cons hno).2 heq
            exact ih5 _ _ _ _ (by simp [astNoGT, isGTOperator, hacc, hR]) hRest1 hok
        · split at hok
          · simp at hok
          · rename_i right rest1 heq
            obtain ⟨hR, hRest1⟩ := ih6 _ _ _ (noGT_cons hno).2 heq
            exact ih5 _ _ _ _ (by simp [astNoGT, isGTOperator, hacc, hR]) hRest1 hok
        · split at hok
          · simp at hok
          · rename_i right rest1 heq
            obtain ⟨hR, hRest1⟩ := ih6 _ _ _ (noGT_cons hno).2 heq
            exact ih5 _ _ _ _ (by simp [astNoGT, isGTOperator, hacc, hR]) hRest1 hok
        · split at hok
          · simp at hok
          · rename_i right rest1 heq
            obtain ⟨hR, hRest1⟩ := ih6 _ _ _ (noGT_cons hno).2 heq
            exact ih5 _ _ _ _ (by simp [astNoGT, isGTOperator, hacc, hR]) hRest1 hok
        · simp only [Except.ok.injEq, Prod.mk.injEq] at hok
          obtain ⟨ha, hr⟩ := hok
          subst ha
          subst hr
          exact ⟨hacc, hno⟩
    · intro toks a rest hno hok
      rw [parseAdditive.eq_def] at hok
      split at hok
      · simp at hok
      · rename_i m hm
        injection hm with hm2
        subst hm2
        split at hok
        · simp at hok
        · rename_i left rest1 heq
          obtain ⟨hAst, hRest⟩ := ih8 _ _ _ hno heq
          exact ih7 _ _ _ _ hAst hRest hok
    · intro acc toks a rest hacc hno hok
      rw [parseAdditiveLoop.eq_def] at hok
      split at hok
      · simp at hok
      · rename_i m hm
        injection hm with hm2
        subst hm2
        split at hok
        · split at hok
          · simp at hok
          · rename_i right rest1 heq
            obtain ⟨hR, hRest1⟩ := ih8 _ _ _ (noGT_cons hno).2 heq
            exact ih7 _ _ _ _ (by simp [astNoGT, isGTOperator, hacc, hR]) hRest1 hok
        · split at hok
          · simp at hok
          · rename_i right rest1 heq
            obtain ⟨hR, hRest1⟩ := ih8 _ _ _ (noGT_cons hno).2 heq
            exact ih7 _ _ _ _ (by simp [astNoGT, isGTOperator, hacc, hR]) hRest1 hok
        · simp only [Except.ok.injEq, Prod.mk.injEq] at hok
          obtain ⟨ha, hr⟩ := hok
          subst ha
          subst hr
          exact ⟨hacc, hno⟩
    · intro toks a rest hno hok
      rw [parseMultiplicative.eq_def] at hok
      split at hok
      · simp at hok
      · rename_i m hm
        injection hm with hm2
        subst hm2
        split at hok
        · simp at hok
        · rename_i left rest1 heq
          obtain ⟨hAst, hRest⟩ := ih10 _ _ _ hno heq
          exact ih9 _ _ _ _ hAst hRest hok
    · intro acc toks a rest hacc hno hok
      rw [parseMultiplicativeLoop.eq_def] at hok
      split at hok
      · simp at hok
      · rename_i m hm
        injection hm with hm2
        subst hm2
        split at hok
        · split at hok
          · simp at hok
          · rename_i right rest1 heq
            obtain ⟨hR, hRest1⟩ := ih10 _ _ _ (noGT_cons hno).2 heq
            exact ih9 _ _ _ _ (by simp [astNoGT, isGTOperator, hacc, hR]) hRest1 hok
        · split at hok
          · simp at hok
          · rename_i right rest1 heq
            obtain ⟨hR, hRest1⟩ := ih10 _ _ _ (noGT_cons hno).2 heq
            exact ih9 _ _ _ _ (by simp [astNoGT, isGTOperator, hacc, hR]) hRest1 hok
        · simp only [Except.ok.injEq, Prod.mk.injEq] at hok
          obtain ⟨ha, hr⟩ := hok
          subst ha
          subst hr
          exact ⟨hacc, hno⟩
    · intro toks a rest hno hok
      rw [parsePrimary.eq_def] at hok
      split at hok
      · simp at hok
      · rename_i m hm
        injection hm with hm2
        subst hm2
        split at hok
        · simp only [Except.ok.injEq, Prod.mk.injEq] at hok
          obtain ⟨ha, hr⟩ := hok
          subst ha
          subst hr
          exact ⟨by simp [astNoGT], (noGT_cons hno).2⟩
        · simp only [Except.ok.injEq, Prod.mk.injEq] at hok
          obtain ⟨ha, hr⟩ := hok
          subst ha
          subst hr
          exact ⟨by simp [astNoGT], (noGT_cons hno).2⟩
        · simp only [Except.ok.injEq, Prod.mk.injEq] at hok
          obtain ⟨ha, hr⟩ := hok
          subst ha
          subst hr
          exact ⟨by simp [astNoGT], (noGT_cons hno).2⟩
        · simp only [Except.ok.injEq, Prod.mk.injEq] at hok
          obtain ⟨ha, hr⟩ := hok
          subst ha
          subst hr
          exact ⟨by simp [astNoGT], (noGT_cons hno).2⟩
        · simp only [Except.ok.injEq, Prod.mk.injEq] at hok
          obtain ⟨ha, hr⟩ := hok
          subst ha
          subst hr
          exact ⟨by simp [astNoGT], (noGT_cons hno).2⟩
        · split at hok
          · simp at hok
          · rename_i expr rest1 heq
            split at hok
            · simp at hok
            · rename_i rest2 heq2
              simp only [Except.ok.injEq, Prod.mk.injEq] at hok
              obtain ⟨ha, hr⟩ := hok
              subst ha
              subst hr
              obtain ⟨hAst, hRest⟩ := ih3 _ _ _ (noGT_cons hno).2 heq
              exact ⟨hAst, expect_noGT _ _ _ hRest heq2⟩
        · simp at hok
    · intro toks a rest hno hok
      rw [parseIfStatement.eq_def] at hok
      split at hok
      · simp at hok
      · rename_i m hm
        injection hm with hm2
        subst hm2
        split at hok
        · split at hok
          · simp at hok
          · rename_i condition rest1 heq1
            split at hok
            · simp at hok
            · rename_i rest2 heq2
              split at hok
              · simp at hok
              · rename_i thenBranch rest3 heq3
                obtain ⟨hCond, hRest1⟩ := ih3 _ _ _ (noGT_cons hno).2 heq1
                have hRest2 := expect_noGT _ _ _ hRest1 heq2
                obtain ⟨hThen, hRest3⟩ := ih12 _ _ _ hRest2 heq3
                split at hok
                · rename_i rest4
                  split at hok
                  · simp at hok
                  · rename_i elseStatements rest5 heq5
                    simp only [Except.ok.injEq, Prod.mk.injEq] at hok
                    obtain ⟨ha, hr⟩ := hok
                    subst ha
                    subst hr
                    obtain ⟨hElse, hRest5⟩ := ih13 _ _ _ (noGT_cons hRest3).2 heq5
                    exact ⟨by simp [astNoGT, hCond, hThen, hElse], hRest5⟩
                · simp only [Except.ok.injEq, Prod.mk.injEq] at hok
                  obtain ⟨ha, hr⟩ := hok
                  subst ha
                  subst hr
                  exact ⟨by simp [astNoGT, hCond, hThen], hRest3⟩
        · simp at hok
    · intro toks l rest hno hok
      rw [parseThenBranch.eq_def] at hok
      split at hok
      · simp at hok
      · rename_i m hm
        injection hm with hm2
        subst hm2
        split at hok
        · simp only [Except.ok.injEq, Prod.mk.injEq] at hok
          obtain ⟨hl, hr⟩ := hok
          subst hl
          subst hr
          exact ⟨by simp [astListNoGT], by simp⟩
        · simp only [Except.ok.injEq, Prod.mk.injEq] at hok
          obtain ⟨hl, hr⟩ := hok
          subst hl
          subst hr
          exact ⟨by simp [astListNoGT], hno⟩
        · split at hok
          · simp at hok
          · rename_i stmt rest1 heq1
            split at hok
            · simp at hok
            · rename_i stmts rest2 heq2
              simp only [Except.ok.injEq, Prod.mk.injEq] at hok
              obtain ⟨hl, hr⟩ := hok
              subst hl
              subst hr
              obtain ⟨hStmt, hRest1⟩ := ih1 _ _ _ hno heq1
              obtain ⟨hStmts, hRest2⟩ := ih12 _ _ _ hRest1 heq2
              exact ⟨by simp [astListNoGT, hStmt, hStmts], hRest2⟩
    · intro toks l rest hno hok
      rw [parseElseBranch.eq_def] at hok
      split at hok
      · simp at hok
      · rename_i m hm
        injection hm with hm2
        subst hm2
        split at hok
        · simp only [Except.ok.injEq, Prod.mk.injEq] at hok
          obtain ⟨hl, hr⟩ := hok
          subst hl
          subst hr
          exact ⟨by simp [astListNoGT], by simp⟩
        · split at hok
          · simp at hok
          · rename_i stmt rest1 heq1
            split at hok
            · simp at hok
            · rename_i stmts rest2 heq2
              simp only [Except.ok.injEq, Prod.mk.injEq] at hok
              obtain ⟨hl, hr⟩ := hok
              subst hl
              subst hr
              obtain ⟨hStmt, hRest1⟩ := ih1 _ _ _ hno heq1
              obtain ⟨hStmts, hRest2⟩ := ih13 _ _ _ hRest1 heq2
              exact ⟨by simp [astListNoGT, hStmt, hStmts], hRest2⟩

/-- A token stream free of the greater-than token parses to a program
free of the greater-than operator. -/
theorem parseProgram_noGT (fuel : Nat) :
    ∀ toks ast, Token.GT ∉ toks → parseProgram fuel toks = Except.ok ast →
      astListNoGT ast = true := by
  induction fuel with
  | zero =>
    intro toks ast hno hok
    cases toks with
    | nil =>
      simp [parseProgram] at hok
      subst hok
      simp [astListNoGT]
    | cons t ts => simp [parseProgram] at hok
  | succ n ih =>
    intro toks ast hno hok
    cases toks with
    | nil =>
      simp [parseProgram] at hok
      subst hok
      simp [astListNoGT]
    | cons t ts =>
      simp only [parseProgram] at hok
      split at hok
      · simp at hok
      · rename_i stmt rest heq
        split at hok
        · simp at hok
        · rename_i stmts heq2
          simp only [Except.ok.injEq] at hok
          subst hok
          obtain ⟨hStmt, hRest⟩ := (parser_noGT n).1 _ _ _ hno heq
          have hTail := ih rest stmts hRest heq2
          simp [astListNoGT, hStmt, hTail]

/-- Every token in the lexer output avoids the five comparison tokens
the scanner never builds. -/
theorem lexGo_no_comparison (fuel : Nat) :
    ∀ cs t, t ∈ lexGo fuel cs →
      t ≠ Token.GT ∧ t ≠ Token.GTE ∧ t ≠ Token.LTE ∧ t ≠ Token.EQ ∧ t ≠ Token.NEQ := by
  induction fuel with
  | zero => intro cs t h; simp [lexGo] at h
  | succ m ih =>
    intro cs t h
    rw [lexGo] at h
    cases hnt : nextToken cs with
    | mk opt rest =>
      rw [hnt] at h
      cases opt with
      | none => simp at h
      | some t0 =>
        simp only [List.mem_cons] at h
        rcases h with rfl | hmem
        · exact (nextToken_sound cs t rest hnt).1
        · exact ih rest t hmem

/-- C5: both the less-than and the greater-than characters map to the
same less-than token; the lexer never produces the greater-than,
greater-equal, less-equal, equal or not-equal comparison tokens; and no
tree produced by the lexer-then-parser pipeline contains a binary
operation with the greater-than operator. -/
theorem C5_gt_unreachable :
    (∀ rest, nextToken ('<' :: rest) = (some Token.LT, rest) ∧
      nextToken ('>' :: rest) = (some Token.LT, rest)) ∧
    (∀ fuel cs t, t ∈ lexGo fuel cs →
      t ≠ Token.GT ∧ t ≠ Token.GTE ∧ t ≠ Token.LTE ∧ t ≠ Token.EQ ∧ t ≠ Token.NEQ) ∧
    (∀ input ast, parserRun (lexRun input) = some ast → astListNoGT ast = true) := by
  refine ⟨?_, ?_, ?_⟩
  · intro rest
    constructor <;> simp +decide [nextToken, List.dropWhile_cons]
  · exact fun fuel => lexGo_no_comparison fuel
  · intro input ast h
    have hno : Token.GT ∉ lexRun input := fun hm =>
      (lexGo_no_comparison _ _ _ hm).1 rfl
    unfold parserRun at h
    split at h
    · rename_i ast2 heq
      simp only [Option.some.injEq] at h
      subst h
      exact parseProgram_noGT _ _ _ hno heq
    · simp at h

/-- Witness for C5: the source ٢ > ٣. — the greater-than character is
lexed as the less-than token and the parsed tree carries the less-than
operator, not greater-than. -/
theorem C5_witness :
    astListNoGT [ASTNode.BinaryOp (ASTNode.Number 2) Operator.LT (ASTNode.Number 3)] = true :=
  C5_gt_unreachable.2.2 "٢ > ٣."
    [ASTNode.BinaryOp (ASTNode.Number 2) Operator.LT (ASTNode.Number 3)] (by
      simp +decide [lexRun, lexGo, nextToken, readNumber, arabicNumeralToFloat, arabicDigitStep,
        List.dropWhile_cons, List.takeWhile_cons, List.foldl_cons,
        parserRun, parserFuel, parseProgram, parseStatement, parseExpression,
        parseComparison, parseComparisonLoop, parseAdditive, parseAdditiveLoop,
        parseMultiplicative, parseMultiplicativeLoop, parsePrimary, expect])

end Amoud
